import Mathlib

/-!
Verification of the capture-parameter resolution logic of `recordscreen.py`,
a command-line screen-recording front end.  Python functions and the inline
logic of the `__main__` block are shallowly embedded as Lean definitions;
Python integers are modelled by `Int` (they are unbounded), Python lists by
`List`, and fallible paths by explicit result types.
-/

namespace Recordscreen

/-- Defaults from the head of the source file. -/
def DEFAULT_FILE_EXTENSION : String := "mkv"

/-- Accepted container formats (`ACCEPTABLE_FILE_EXTENSIONS` in the source). -/
def ACCEPTABLE_FILE_EXTENSIONS : List String := ["avi", "mp4", "mov", "mkv", "ogv", "webm"]

/-- Supported capture tools, in autodetection priority order. -/
def tools : List String := ["ffmpeg", "avconv", "vlc"]

/-- Video codec registry (the `vcodecs` dict of the source): codec name to
ffmpeg argument fragment.  Entries appear in source order; the commented-out
`xvid` and `dirac` entries of the source are absent, as in the running code. -/
def vcodecs : List (String × List String) :=
  [("h264_lossless", ["-c:v", "libx264", "-g", "15", "-crf", "0", "-pix_fmt", "yuv444p"]),
   ("h264", ["-c:v", "libx264", "-vprofile", "baseline", "-g", "15", "-crf", "1", "-pix_fmt", "yuv420p"]),
   ("mpeg4", ["-c:v", "mpeg4", "-g", "15", "-qmax", "1", "-qmin", "1"]),
   ("huffyuv", ["-c:v", "huffyuv"]),
   ("ffv1", ["-c:v", "ffv1", "-coder", "1", "-context", "1"]),
   ("vp8", ["-c:v", "libvpx", "-g", "15", "-qmax", "1", "-qmin", "1"]),
   ("theora", ["-c:v", "libtheora", "-g", "15", "-b:v", "40000k"])]

/-- Audio codec registry (the `acodecs` dict of the source). -/
def acodecs : List (String × List String) :=
  [("pcm", ["-c:a", "pcm_s16le"]),
   ("vorbis", ["-c:a", "libvorbis", "-b:a", "320k"]),
   ("mp3", ["-c:a", "libmp3lame", "-b:a", "320k"]),
   ("aac", ["-c:a", "libvo_aacenc", "-b:a", "320k"]),
   ("faac", ["-c:a", "libfaac", "-b:a", "320k"]),
   ("ffaac", ["-strict", "experimental", "-c:a", "aac", "-b:a", "320k"])]

/-- Codec size-alignment table (the `mults` dict at line 500 of the source). -/
def mults : List (String × Int) :=
  [("h264", 2), ("h264_lossless", 2), ("mpeg4", 2), ("dirac", 2), ("xvid", 2),
   ("theora", 8), ("huffyuv", 2), ("ffv1", 1), ("vp8", 1)]

/-- Region calculation of the `__main__` block (lines 492 to 502 of the
source): crop margins are applied to width, height, x, y, then width and
height are truncated down to a multiple of the codec alignment.  Python's
`%` on a positive modulus agrees with `Int.emod`.  The result tuple is
`(x, y, width, height)`. -/
def resolveRegion (x y width height cropL cropR cropT cropB align : Int) :
    Int × Int × Int × Int :=
  let width := width - (cropL + cropR)
  let height := height - (cropT + cropB)
  let x := x + cropL
  let y := y + cropT
  let width := width - width % align
  let height := height - height % align
  (x, y, width, height)

/-- Off-screen validation of the `__main__` block (line 505 of the source):
`(x + width) > dres[0] or (y + height) > dres[1]`. -/
def offscreen (x y width height dresW dresH : Int) : Bool :=
  decide (x + width > dresW) || decide (y + height > dresH)

/-- Warning message printed when a codec is replaced for the webm container
(lines 447 and 451 of the source). -/
def webmWarning (codec newCodec : String) : String :=
  "Warning: Selected codec (" ++ codec ++ ") is invalid for webm format\n" ++
  "         Changing codec to " ++ newCodec

/-- Container/codec reconciliation of the `__main__` block (lines 442 to 453
of the source): for the webm container, a video codec outside `["vp8"]` is
replaced by `"vp8"` and an audio codec outside `["vorbis"]` by `"vorbis"`,
each with a printed warning (collected here as a list).  Result:
`((vcodec, acodec), warnings)`. -/
def fixCodecs (container vcodec acodec : String) : (String × String) × List String :=
  if container = "webm" then
    let vres := if vcodec = "vp8" then (vcodec, ([] : List String))
                else ("vp8", [webmWarning vcodec "vp8"])
    let ares := if acodec = "vorbis" then (acodec, ([] : List String))
                else ("vorbis", [webmWarning acodec "vorbis"])
    ((vres.1, ares.1), vres.2 ++ ares.2)
  else ((vcodec, acodec), [])

/-- Truncating an integer down by its remainder always lands on a multiple of
the modulus. -/
theorem sub_emod_self_emod (w m : Int) : (w - w % m) % m = 0 := by
  rw [Int.sub_emod, Int.emod_emod_of_dvd w dvd_rfl, sub_self, Int.zero_emod]

/-- Both size components of the resolved region are multiples of the
alignment. -/
theorem resolveRegion_mod (x y w h cl cr ct cb m : Int) :
    (resolveRegion x y w h cl cr ct cb m).2.2.1 % m = 0 ∧
    (resolveRegion x y w h cl cr ct cb m).2.2.2 % m = 0 :=
  ⟨sub_emod_self_emod (w - (cl + cr)) m, sub_emod_self_emod (h - (ct + cb)) m⟩

/-- C2: every codec of the video registry has a positive integer alignment in
the alignment table, and the region calculation always outputs width and
height that are exact multiples of that alignment. -/
theorem vcodec_alignment_c2 :
    ∀ p ∈ vcodecs, ∃ m : Int, List.lookup p.1 mults = some m ∧ 0 < m ∧
      ∀ x y w h cl cr ct cb : Int,
        (resolveRegion x y w h cl cr ct cb m).2.2.1 % m = 0 ∧
        (resolveRegion x y w h cl cr ct cb m).2.2.2 % m = 0 := by
  intro p hp
  fin_cases hp
  · exact ⟨2, by decide, by decide, fun x y w h cl cr ct cb => resolveRegion_mod x y w h cl cr ct cb 2⟩
  · exact ⟨2, by decide, by decide, fun x y w h cl cr ct cb => resolveRegion_mod x y w h cl cr ct cb 2⟩
  · exact ⟨2, by decide, by decide, fun x y w h cl cr ct cb => resolveRegion_mod x y w h cl cr ct cb 2⟩
  · exact ⟨2, by decide, by decide, fun x y w h cl cr ct cb => resolveRegion_mod x y w h cl cr ct cb 2⟩
  · exact ⟨1, by decide, by decide, fun x y w h cl cr ct cb => resolveRegion_mod x y w h cl cr ct cb 1⟩
  · exact ⟨1, by decide, by decide, fun x y w h cl cr ct cb => resolveRegion_mod x y w h cl cr ct cb 1⟩
  · exact ⟨8, by decide, by decide, fun x y w h cl cr ct cb => resolveRegion_mod x y w h cl cr ct cb 8⟩

/-- C2 witness: instantiation at the `h264` registry entry. -/
theorem vcodec_alignment_c2_witness :
    ∃ m : Int, List.lookup "h264" mults = some m ∧ 0 < m ∧
      (resolveRegion 0 0 1920 1080 0 1 0 0 m).2.2.1 % m = 0 := by
  obtain ⟨m, h1, h2, h3⟩ :=
    vcodec_alignment_c2
      ("h264", ["-c:v", "libx264", "-vprofile", "baseline", "-g", "15", "-crf", "1", "-pix_fmt", "yuv420p"])
      (by decide)
  exact ⟨m, h1, h2, (h3 0 0 1920 1080 0 1 0 0).1⟩

/-- C3: the region calculation applies the crop margins exactly as
`width -= cropLeft + cropRight`, `height -= cropTop + cropBottom`,
`x += cropLeft`, `y += cropTop` before the alignment truncation; with
position 0x0, size 1920x1080, crop-right 1 and alignment 2 the final width
is 1918. -/
theorem resolve_region_c3 :
    (∀ x y w h cl cr ct cb m : Int,
      resolveRegion x y w h cl cr ct cb m =
        (x + cl, y + ct,
         (w - (cl + cr)) - (w - (cl + cr)) % m,
         (h - (ct + cb)) - (h - (ct + cb)) % m)) ∧
    (resolveRegion 0 0 1920 1080 0 1 0 0 2).2.2.1 = 1918 :=
  ⟨fun _ _ _ _ _ _ _ _ _ => rfl, by decide⟩

/-- C4: the validation flags the region as off screen exactly when
`x + width > desktopWidth` or `y + height > desktopHeight`; there is no
lower-bound check, so negative origins and non-positive sizes pass whenever
the two upper bounds hold. -/
theorem offscreen_check_c4 :
    (∀ x y w h dw dh : Int,
      (offscreen x y w h dw dh = true ↔ (x + w > dw ∨ y + h > dh)) ∧
      (offscreen x y w h dw dh = false ↔ (x + w ≤ dw ∧ y + h ≤ dh))) ∧
    offscreen 1900 0 100 100 1920 1080 = true ∧
    offscreen (-5) (-7) 0 (-3) 1920 1080 = false := by
  refine ⟨fun x y w h dw dh => ⟨?_, ?_⟩, by decide, by decide⟩
  · simp [offscreen]
  · simp [offscreen]

/-- C10: for the webm container the codec pair is always coerced to
`(vp8, vorbis)` (warning each replaced codec), and the alignment table maps
the coerced video codec to 1; for every other container the requested codecs
pass through unchanged with no warning. -/
theorem webm_codec_coercion_c10 (c v a : String) :
    (c = "webm" →
      (fixCodecs c v a).1 = ("vp8", "vorbis") ∧
      List.lookup (fixCodecs c v a).1.1 mults = some 1 ∧
      (fixCodecs c v a).2 =
        (if v = "vp8" then [] else [webmWarning v "vp8"]) ++
        (if a = "vorbis" then [] else [webmWarning a "vorbis"])) ∧
    (c ≠ "webm" → fixCodecs c v a = ((v, a), [])) := by
  constructor
  · intro hc
    subst hc
    by_cases hv : v = "vp8" <;> by_cases ha : a = "vorbis" <;>
      simp [fixCodecs, hv, ha] <;> decide
  · intro hc
    simp [fixCodecs, hc]

/-- C10 witness: a webm run with the default codecs and a non-webm run. -/
theorem webm_codec_coercion_c10_witness :
    ((fixCodecs "webm" "h264" "aac").1 = ("vp8", "vorbis") ∧
      List.lookup (fixCodecs "webm" "h264" "aac").1.1 mults = some 1) ∧
    fixCodecs "mkv" "h264" "aac" = (("h264", "aac"), []) :=
  ⟨⟨((webm_codec_coercion_c10 "webm" "h264" "aac").1 rfl).1,
    ((webm_codec_coercion_c10 "webm" "h264" "aac").1 rfl).2.1⟩,
   (webm_codec_coercion_c10 "mkv" "h264" "aac").2 (by decide)⟩

/-- Python substring containment, `pat in line` on strings. -/
def strContains (line pat : String) : Bool :=
  (List.range (line.data.length + 1)).any (fun i => pat.data.isPrefixOf (line.data.drop i))

/-- Outcome of spawning the probed tool in `check_tool`: either the spawn
itself fails with an OS errno, or the tool runs and its combined
stdout/stderr is read back as a list of lines. -/
inductive SpawnOutcome where
| failed (code : Nat)
| output (lines : List String)
deriving DecidableEq

/-- Errno value for a missing executable, `errno.ENOENT`. -/
def ENOENT : Nat := 2

/-- Observable result of `check_tool`: a returned integer (the source
returns 1 for usable and 0 for absent), a `RuntimeError` from the bare
`raise` statement executed with no active exception, or a re-raised spawn
error. -/
inductive CheckToolResult where
| ret (v : Nat)
| raisedRuntime
| raisedEnv (code : Nat)
deriving DecidableEq

/-- Shallow embedding of `check_tool` (lines 310 to 329 of the source).
When the spawn fails, `except EnvironmentError` returns 0 for `ENOENT` and
re-raises any other errno.  When the tool runs, each output line is scanned
for the marker `"Unrecognized option"`; on a hit the source executes a bare
`raise` inside the `try` body with no exception active, which in Python
raises `RuntimeError` — a type the `except EnvironmentError` clause does not
catch, so it propagates.  Otherwise the function returns 1. -/
def check_tool (spawn : SpawnOutcome) : CheckToolResult :=
  match spawn with
  | .failed code => if code = ENOENT then .ret 0 else .raisedEnv code
  | .output lines =>
      if lines.any (fun l => strContains l "Unrecognized option") then .raisedRuntime
      else .ret 1

/-- C1 evaluation: a tool whose output carries the "Unrecognized option"
marker makes `check_tool` raise (the bare `raise` slip) instead of returning
false; a missing executable returns 0 without raising; any other spawn errno
re-raises; a clean run returns 1. -/
theorem check_tool_marker_raises_c1 :
    check_tool (.output ["b'Unrecognized option 'c:v''"]) = .raisedRuntime ∧
    check_tool (.failed ENOENT) = .ret 0 ∧
    check_tool (.failed 13) = .raisedEnv 13 ∧
    check_tool (.output ["ffmpeg version 4.4"]) = .ret 1 := by
  refine ⟨?_, by decide, by decide, ?_⟩ <;> decide

/-- Autodetection loop of the `__main__` block (lines 398 to 405 of the
source), instrumented with the list of tools actually probed, in order.
Result: `(probed tools, selected tool or none)`. -/
def selectToolTrace (probe : String → Bool) : List String → List String × Option String
  | [] => ([], none)
  | t :: ts =>
    if probe t then ([t], some t)
    else
      let r := selectToolTrace probe ts
      (t :: r.1, r.2)

/-- Tool selection of the `__main__` block (lines 391 to 405 of the source):
an explicitly requested tool must pass the probe, otherwise the run exits
fatally (`none` here); with no explicit tool the prioritized list is probed
in order and the first success wins; no success is the fatal
"No supported capture/convertion tool found" exit. -/
def selectTool (probe : String → Bool) (explicitTool : Option String)
    (toolList : List String) : Option String :=
  match explicitTool with
  | some name => if probe name then some name else none
  | none => (selectToolTrace probe toolList).2

/-- C7: an explicit tool is selected exactly when its probe succeeds;
autodetection returns the trace's selection; a failed autodetection has
probed every tool of the list and every probe returned false; a successful
autodetection selects the first tool whose probe succeeds, having probed
exactly the tools up to and including it (all earlier probes failed, no
later tool is probed). -/
theorem select_tool_c7 (probe : String → Bool) (toolList : List String) :
    (∀ name, selectTool probe (some name) toolList =
      if probe name then some name else none) ∧
    (selectTool probe none toolList = (selectToolTrace probe toolList).2) ∧
    ((selectToolTrace probe toolList).2 = none →
      (selectToolTrace probe toolList).1 = toolList ∧
      ∀ t ∈ toolList, probe t = false) ∧
    (∀ s, (selectToolTrace probe toolList).2 = some s →
      probe s = true ∧
      ∃ k, k < toolList.length ∧ toolList.get? k = some s ∧
        (∀ j, j < k → ∀ t, toolList.get? j = some t → probe t = false) ∧
        (selectToolTrace probe toolList).1 = toolList.take (k + 1)) := by
  refine ⟨fun name => rfl, rfl, ?_, ?_⟩
  · induction toolList with
    | nil => intro _; exact ⟨rfl, by simp⟩
    | cons t ts ih =>
      intro hnone
      by_cases hp : probe t
      · simp [selectToolTrace, hp] at hnone
      · simp only [selectToolTrace, hp, if_false] at hnone ⊢
        simp only [Bool.false_eq_true, if_false] at hnone ⊢
        obtain ⟨h1, h2⟩ := ih hnone
        refine ⟨by simp [h1], ?_⟩
        intro u hu
        rcases List.mem_cons.mp hu with h | h
        · subst h; exact Bool.eq_false_iff.mpr hp
        · exact h2 u h
  · induction toolList with
    | nil => intro s hs; simp [selectToolTrace] at hs
    | cons t ts ih =>
      intro s hs
      by_cases hp : probe t
      · simp only [selectToolTrace, hp, if_true] at hs ⊢
        injection hs with hs
        subst hs
        refine ⟨hp, 0, by simp, rfl, fun j hj => absurd hj (Nat.not_lt_zero j), ?_⟩
        simp [selectToolTrace, hp]
      · simp only [selectToolTrace, hp, Bool.false_eq_true, if_false] at hs ⊢
        obtain ⟨hps, k, hk, hgot, hprev, htr⟩ := ih s hs
        refine ⟨hps, k + 1, by simpa using hk, by simpa using hgot, ?_, ?_⟩
        · intro j hj u hu
          match j, hj with
          | 0, _ => injection hu with hu; subst hu; exact Bool.eq_false_iff.mpr hp
          | j' + 1, hj =>
            exact hprev j' (Nat.lt_of_succ_lt_succ hj) u (by simpa using hu)
        · simp [htr]

/-- C7 witness: with a probe that accepts only toolB, autodetection over
[toolA, toolB] probes toolA (which fails), selects toolB, and probes nothing
after it; an explicitly requested tool that fails the probe is rejected. -/
theorem select_tool_c7_witness :
    selectTool (fun s => s == "toolB") (some "ffmpeg") ["toolA", "toolB"] = none ∧
    (fun s => s == "toolB") "toolB" = true ∧
    (selectToolTrace (fun _ : String => false) ["toolA", "toolB"]).1 = ["toolA", "toolB"] :=
  ⟨by rw [(select_tool_c7 (fun s => s == "toolB") ["toolA", "toolB"]).1 "ffmpeg"]; decide,
   ((select_tool_c7 (fun s => s == "toolB") ["toolA", "toolB"]).2.2.2 "toolB" (by decide)).1,
   ((select_tool_c7 (fun _ : String => false) ["toolA", "toolB"]).2.2.1 (by decide)).1⟩

/-- Python `outfile.rsplit(".", 1)`: split at the last dot, if any.  The
source's two-element list `[base, ext]` is modelled as `(base, some ext)`,
and the one-element list (no dot) as `(outfile, none)`. -/
def rsplit1 (s : String) : String × Option String :=
  let rev := s.data.reverse
  match rev.dropWhile (fun c => c != '.') with
  | [] => (s, none)
  | _ :: pre =>
      (String.mk pre.reverse, some (String.mk (rev.takeWhile (fun c => c != '.')).reverse))

/-- Extension of a path as the source computes it: the part after the last
dot, or `none` when the path has no dot. -/
def pathExt (s : String) : Option String := (rsplit1 s).2

/-- Extension/container merge of the `__main__` block (lines 424 to 439 of
the source): when the path has no dot or its extension is not acceptable,
the container (explicit option or default) is appended to the path;
otherwise the path stays and the container is the explicit option or the
path's own extension. -/
def reconcileExtension (outfile : String) (copt : Option String) :
    Except String (String × String) :=
  match (rsplit1 outfile).2 with
  | none =>
      let container := copt.getD DEFAULT_FILE_EXTENSION
      .ok (outfile ++ "." ++ container, container)
  | some e =>
      if e ∈ ACCEPTABLE_FILE_EXTENSIONS then .ok (outfile, copt.getD e)
      else
        let container := copt.getD DEFAULT_FILE_EXTENSION
        .ok (outfile ++ "." ++ container, container)

/-- Container reconciliation of the `__main__` block (lines 410 to 439 of
the source).  The explicit container option is validated first, independent
of the path; then, when the path has no extension or an extension outside
`ACCEPTABLE_FILE_EXTENSIONS`, the container is the explicit option or the
default and is appended to the path; an acceptable path extension leaves the
path unchanged and is used as container only when no explicit option is
given.  Python treats an empty `opts.container` string as falsy, so an
absent-or-empty option is modelled as `none`.  Result: `(outfile, container)`
or the fatal "not a supported container format" exit. -/
def reconcileContainer (outfile : String) (copt : Option String) :
    Except String (String × String) :=
  match copt with
  | some c =>
      if c ∈ ACCEPTABLE_FILE_EXTENSIONS then reconcileExtension outfile (some c)
      else .error ("Error: " ++ c ++ " is not a supported container format.")
  | none => reconcileExtension outfile none

/-- C6: an explicit container outside the accepted set fails regardless of
the path; a path without an acceptable extension gets the explicit (or
default mkv) container appended; a path with an acceptable extension is kept
unchanged, the explicit container still winning over the extension when
given. -/
theorem reconcile_container_c6 (path : String) (copt : Option String) :
    (∀ c, copt = some c → c ∉ ACCEPTABLE_FILE_EXTENSIONS →
      reconcileContainer path copt =
        .error ("Error: " ++ c ++ " is not a supported container format.")) ∧
    ((copt = none ∨ ∃ c, copt = some c ∧ c ∈ ACCEPTABLE_FILE_EXTENSIONS) →
      ((pathExt path = none ∨
        ∃ e, pathExt path = some e ∧ e ∉ ACCEPTABLE_FILE_EXTENSIONS) →
        reconcileContainer path copt =
          .ok (path ++ "." ++ copt.getD DEFAULT_FILE_EXTENSION,
               copt.getD DEFAULT_FILE_EXTENSION)) ∧
      (∀ e, pathExt path = some e → e ∈ ACCEPTABLE_FILE_EXTENSIONS →
        reconcileContainer path copt = .ok (path, copt.getD e))) := by
  constructor
  · intro c hceq hnotin
    subst hceq
    simp [reconcileContainer, hnotin]
  · intro hok
    have hrec : reconcileContainer path copt = reconcileExtension path copt := by
      rcases hok with h | ⟨c, hceq, hcin⟩
      · subst h; rfl
      · subst hceq; simp [reconcileContainer, hcin]
    constructor
    · intro hext
      rw [hrec]
      rcases hext with h | ⟨e, he, hen⟩
      · simp only [pathExt] at h
        simp [reconcileExtension, h]
      · simp only [pathExt] at he
        simp [reconcileExtension, he, hen]
    · intro e he hin
      rw [hrec]
      simp only [pathExt] at he
      simp [reconcileExtension, he, hin]

/-- C6 witness: an explicit avi container wins over an acceptable mp4 path
extension; an extension-less path gets the default mkv container appended;
an unsupported explicit container fails regardless of the path. -/
theorem reconcile_container_c6_witness :
    reconcileContainer "clip.mp4" (some "avi") = .ok ("clip.mp4", "avi") ∧
    reconcileContainer "clip" none = .ok ("clip.mkv", "mkv") ∧
    reconcileContainer "clip.mp4" (some "zzz") =
      .error "Error: zzz is not a supported container format." := by
  refine ⟨?_, ?_, ?_⟩
  · have h := ((reconcile_container_c6 "clip.mp4" (some "avi")).2
      (Or.inr ⟨"avi", rfl, by decide⟩)).2 "mp4" (by decide) (by decide)
    exact h
  · have h := ((reconcile_container_c6 "clip" none).2 (Or.inl rfl)).1
      (Or.inl (by decide))
    exact h
  · have h := (reconcile_container_c6 "clip.mp4" (some "zzz")).1 "zzz" rfl (by decide)
    exact h

/-- Python `str(i).rjust(4, '0')`. -/
def pad4 (i : Nat) : String :=
  let s := toString i
  if s.length < 4 then String.mk (List.replicate (4 - s.length) '0') ++ s else s

/-- Candidate file name `"out_" + str(i).rjust(4,'0') + "." + ext` built by
`get_default_output_path`. -/
def outName (ext : String) (i : Nat) : String :=
  "out_" ++ pad4 i ++ "." ++ ext

/-- Shallow embedding of `get_default_output_path` (lines 280 to 295 of the
source).  The glob result (the directory's matching file names) is passed in
as `filenames`.  Python's `range(1, 9999)` runs `i` from 1 to 9998; the loop
returns the first candidate name with a zero tally among `filenames`, and the
fallthrough returns `"out_9999." + ext`. -/
def get_default_output_path (filenames : List String) (extOpt : Option String) : String :=
  let ext := extOpt.getD DEFAULT_FILE_EXTENSION
  match (List.range' 1 9998).find?
      (fun i => filenames.countP (fun f => f == outName ext i) == 0) with
  | some i => outName ext i
  | none => "out_9999" ++ "." ++ ext

/-- The loop's zero-tally test holds exactly when the candidate name is not
among the directory's files. -/
theorem freeName_iff (filenames : List String) (ext : String) (i : Nat) :
    ((filenames.countP (fun f => f == outName ext i) == 0) = true) ↔
      outName ext i ∉ filenames := by
  simp only [beq_iff_eq, List.countP_eq_zero, beq_iff_eq]
  constructor
  · intro h hmem
    exact h _ hmem rfl
  · intro h f hf hEq
    exact h (hEq ▸ hf)

/-- On a contiguous range, `find?` returns the first index satisfying the
predicate. -/
theorem find?_range'_first (p : Nat → Bool) :
    ∀ (len s n : Nat), s ≤ n → n < s + len → p n = true →
      (∀ j, s ≤ j → j < n → p j = false) →
      (List.range' s len).find? p = some n := by
  intro len
  induction len with
  | zero => intro s n h1 h2 _ _; omega
  | succ k ih =>
    intro s n h1 h2 hp hprev
    rw [List.range'_succ]
    rcases Nat.eq_or_lt_of_le h1 with heq | hlt
    · subst heq
      rw [List.find?_cons_of_pos _ hp]
    · have hps : p s = false := hprev s (Nat.le_refl s) hlt
      rw [List.find?_cons_of_neg _ (by simp [hps])]
      exact ih (s + 1) n hlt (by omega) hp (fun j hj1 hj2 => hprev j (by omega) hj2)

/-- C5: the default output path is `out_NNNN.ext` for the smallest sequence
number in [1, 9999] whose name is not already present, and `out_9999.ext`
(without error) when every number is taken. -/
theorem default_output_path_c5 (ext : String) (filenames : List String) :
    (∀ n, 1 ≤ n → n ≤ 9999 → outName ext n ∉ filenames →
      (∀ j, 1 ≤ j → j < n → outName ext j ∈ filenames) →
      get_default_output_path filenames (some ext) = outName ext n) ∧
    ((∀ j, 1 ≤ j → j ≤ 9999 → outName ext j ∈ filenames) →
      get_default_output_path filenames (some ext) = outName ext 9999) := by
  have hfall : (∀ j, 1 ≤ j → j ≤ 9998 → outName ext j ∈ filenames) →
      get_default_output_path filenames (some ext) = outName ext 9999 := by
    intro hAll
    have hnone : (List.range' 1 9998).find?
        (fun i => filenames.countP (fun f => f == outName ext i) == 0) = none := by
      rw [List.find?_eq_none]
      intro j hj hpj
      have hj' := List.mem_range'_1.mp hj
      exact ((freeName_iff filenames ext j).mp hpj) (hAll j hj'.1 (by omega))
    have hbase : get_default_output_path filenames (some ext) = "out_9999" ++ "." ++ ext := by
      simp [get_default_output_path, hnone]
    rw [hbase]
    exact congrArg (· ++ ext) (by decide)
  constructor
  · intro n h1 h2 hfree hprev
    rcases Nat.lt_or_ge n 9999 with hlt | hge
    · have hfind := find?_range'_first
        (fun i => filenames.countP (fun f => f == outName ext i) == 0)
        9998 1 n h1 (by omega)
        ((freeName_iff filenames ext n).mpr hfree)
        (fun j hj1 hj2 => Bool.eq_false_iff.mpr
          (fun htrue => ((freeName_iff filenames ext j).mp htrue) (hprev j hj1 hj2)))
      simp [get_default_output_path, hfind]
    · have hn : n = 9999 := by omega
      subst hn
      exact hfall (fun j hj1 hj2 => hprev j hj1 (by omega))
  · intro hAll
    exact hfall (fun j hj1 hj2 => hAll j hj1 (by omega))

/-- C5 witness: an empty directory yields `out_0001.mkv`; a directory holding
`out_0001.mkv` to `out_0050.mkv` yields `out_0051.mkv`; a directory holding
all 9999 names yields `out_9999.mkv`. -/
theorem default_output_path_c5_witness :
    get_default_output_path [] (some "mkv") = "out_0001.mkv" ∧
    get_default_output_path ((List.range' 1 50).map (outName "mkv")) (some "mkv") =
      "out_0051.mkv" ∧
    get_default_output_path ((List.range' 1 9999).map (outName "mkv")) (some "mkv") =
      "out_9999.mkv" := by
  refine ⟨?_, ?_, ?_⟩
  · have h := (default_output_path_c5 "mkv" []).1 1 (by decide) (by decide)
      (by simp)
      (fun j hj1 hj2 => absurd (Nat.lt_of_le_of_lt hj1 hj2) (Nat.lt_irrefl 1))
    exact h.trans (by decide)
  · have h := (default_output_path_c5 "mkv" ((List.range' 1 50).map (outName "mkv"))).1
      51 (by decide) (by decide) (by decide)
      (fun j hj1 hj2 =>
        List.mem_map_of_mem (outName "mkv") (List.mem_range'_1.mpr ⟨hj1, by omega⟩))
    exact h.trans (by decide)
  · have h := (default_output_path_c5 "mkv" ((List.range' 1 9999).map (outName "mkv"))).2
      (fun j hj1 hj2 =>
        List.mem_map_of_mem (outName "mkv") (List.mem_range'_1.mpr ⟨hj1, by omega⟩))
    exact h.trans (by decide)

/-- Python `str.strip()`: whitespace removed from both ends. -/
def pyStrip (s : String) : String :=
  String.mk (((s.data.dropWhile Char.isWhitespace).reverse.dropWhile Char.isWhitespace).reverse)

/-- Python `re.match("^[0-9]*x[0-9]*$", s)` as a Boolean: a (possibly empty)
digit run, one literal `x`, then a (possibly empty) digit run.  Since `x` is
not a digit, the regex matches exactly when the first non-digit character
exists, is `x`, and everything after it is digits. -/
def matchesXY (s : String) : Bool :=
  match s.data.dropWhile Char.isDigit with
  | c :: rest => c == 'x' && rest.all Char.isDigit
  | [] => false

/-- Python `str.split(sep)` for a one-character separator. -/
def splitChar (sep : Char) : List Char → List (List Char)
  | [] => [[]]
  | c :: rest =>
    if c = sep then [] :: splitChar sep rest
    else
      match splitChar sep rest with
      | [] => [[c]]
      | r :: rs => (c :: r) :: rs

/-- Numeric value of a digit string, as Python `int` computes it on an
all-digit argument. -/
def digitsVal (l : List Char) : Nat :=
  l.foldl (fun acc c => acc * 10 + (c.toNat - 48)) 0

/-- Python `int` applied to an all-digit string: a `ValueError` (`none`) on
the empty string, the numeric value otherwise. -/
def pyIntDigits : List Char → Option Nat
  | [] => none
  | l => some (digitsVal l)

/-- Outcome of parsing a position/size option string: the
`parser.error` malformed-option exit, an uncaught `ValueError` from `int`,
or the two parsed components. -/
inductive XYParse where
| malformed
| valueError
| parsed (a b : Nat)
deriving DecidableEq

/-- Shallow embedding of the position/size option handling of the
`__main__` block (lines 470 to 487 of the source): the stripped option
string is matched against `^[0-9]*x[0-9]*$`; a failure is the
`parser.error` exit, a success is split at `"x"` and both parts go through
`int`. -/
def parse_xy (s : String) : XYParse :=
  if matchesXY (pyStrip s) then
    match splitChar 'x' (pyStrip s).data with
    | [a, b] =>
      match pyIntDigits a, pyIntDigits b with
      | some u, some v => .parsed u v
      | _, _ => .valueError
    | _ => .valueError
  else .malformed

/-- Dropping digits from a digit-run-then-x prefix stops at the x. -/
theorem dropWhile_digits_append (A B : List Char) (hA : A.all Char.isDigit = true) :
    (A ++ 'x' :: B).dropWhile Char.isDigit = 'x' :: B := by
  have hx : Char.isDigit 'x' = false := by decide
  induction A with
  | nil => simp [List.dropWhile_cons, hx]
  | cons c cs ih =>
    simp only [List.all_cons, Bool.and_eq_true] at hA
    simp only [List.cons_append, List.dropWhile_cons, hA.1, if_true]
    exact ih hA.2

/-- The separator x never occurs in a digit run. -/
theorem x_not_mem_digits (A : List Char) (hA : A.all Char.isDigit = true) :
    'x' ∉ A := by
  intro hmem
  exact absurd (List.all_eq_true.mp hA _ hmem) (by decide)

/-- Splitting a list free of the separator returns the list whole. -/
theorem splitChar_not_mem (sep : Char) (l : List Char) (h : sep ∉ l) :
    splitChar sep l = [l] := by
  induction l with
  | nil => rfl
  | cons c cs ih =>
    have hc : ¬(c = sep) := fun hEq => h (hEq ▸ List.mem_cons_self c cs)
    have hcs : sep ∉ cs := fun hm => h (List.mem_cons_of_mem c hm)
    simp [splitChar, hc, ih hcs]

/-- Splitting at the first separator occurrence peels off the prefix. -/
theorem splitChar_append (sep : Char) (A B : List Char) (hA : sep ∉ A) :
    splitChar sep (A ++ sep :: B) = A :: splitChar sep B := by
  induction A with
  | nil => simp [splitChar]
  | cons c cs ih =>
    have hc : ¬(c = sep) := fun hEq => hA (hEq ▸ List.mem_cons_self c cs)
    have hcs : sep ∉ cs := fun hm => hA (List.mem_cons_of_mem c hm)
    simp [splitChar, hc, ih hcs]

/-- Python `int` succeeds on a nonempty digit string. -/
theorem pyIntDigits_ne_nil (l : List Char) (h : l ≠ []) :
    pyIntDigits l = some (digitsVal l) := by
  cases l with
  | nil => exact absurd rfl h
  | cons c cs => rfl

/-- C9 (amended): a position/size option string fails with the
malformed-option exit exactly when its stripped form does not match
`^[0-9]*x[0-9]*$`; a matching string with two nonempty digit components is
parsed into the two components split at the x; a matching string whose
first or second component is empty makes the `int` conversion raise an
uncaught `ValueError` instead of parsing. -/
theorem parse_xy_c9 (s : String) :
    (parse_xy s = .malformed ↔ matchesXY (pyStrip s) = false) ∧
    (∀ A B, (pyStrip s).data = A ++ 'x' :: B → A ≠ [] → B ≠ [] →
      A.all Char.isDigit = true → B.all Char.isDigit = true →
      parse_xy s = .parsed (digitsVal A) (digitsVal B)) ∧
    (∀ B, (pyStrip s).data = 'x' :: B → B.all Char.isDigit = true →
      parse_xy s = .valueError) ∧
    (∀ A, (pyStrip s).data = A ++ ['x'] → A.all Char.isDigit = true →
      parse_xy s = .valueError) := by
  have hnotmal : matchesXY (pyStrip s) = true → parse_xy s ≠ .malformed := by
    intro hm
    unfold parse_xy
    rw [hm, if_pos rfl]
    cases hsp : splitChar 'x' (pyStrip s).data with
    | nil => simp
    | cons a tail =>
      cases tail with
      | nil => simp
      | cons b tail2 =>
        cases tail2 with
        | nil => cases hA : pyIntDigits a <;> cases hB : pyIntDigits b <;> simp [hA, hB]
        | cons c tail3 => simp
  refine ⟨⟨?_, ?_⟩, ?_, ?_, ?_⟩
  · intro hEq
    cases h : matchesXY (pyStrip s)
    · rfl
    · exact absurd hEq (hnotmal h)
  · intro hm
    unfold parse_xy
    rw [hm]
    simp
  · intro A B hdec hAne hBne hAall hBall
    have ht : matchesXY (pyStrip s) = true := by
      unfold matchesXY
      rw [hdec, dropWhile_digits_append A B hAall]
      simp [hBall]
    have hsplit : splitChar 'x' (pyStrip s).data = [A, B] := by
      rw [hdec, splitChar_append 'x' A B (x_not_mem_digits A hAall),
          splitChar_not_mem 'x' B (x_not_mem_digits B hBall)]
    unfold parse_xy
    rw [ht, if_pos rfl, hsplit]
    simp [pyIntDigits_ne_nil A hAne, pyIntDigits_ne_nil B hBne]
  · intro B hdec hBall
    have ht : matchesXY (pyStrip s) = true := by
      unfold matchesXY
      rw [hdec]
      have hx : List.dropWhile Char.isDigit ('x' :: B) = 'x' :: B := by
        simp [List.dropWhile_cons]
      rw [hx]
      simp [hBall]
    have hsplit : splitChar 'x' (pyStrip s).data = [[], B] := by
      rw [hdec]
      have h1 := splitChar_append 'x' [] B (by simp)
      rw [List.nil_append] at h1
      rw [h1, splitChar_not_mem 'x' B (x_not_mem_digits B hBall)]
    unfold parse_xy
    rw [ht, if_pos rfl, hsplit]
    rfl
  · intro A hdec hAall
    have ht : matchesXY (pyStrip s) = true := by
      unfold matchesXY
      rw [hdec, dropWhile_digits_append A [] hAall]
      simp
    have hsplit : splitChar 'x' (pyStrip s).data = [A, []] := by
      rw [hdec, splitChar_append 'x' A [] (x_not_mem_digits A hAall)]
      rfl
    unfold parse_xy
    rw [ht, if_pos rfl, hsplit]
    cases hA : pyIntDigits A <;> simp [hA, pyIntDigits]

/-- C9 counterexample: the strings x and 5x match `^[0-9]*x[0-9]*$` yet are
not parsed into two integers; the `int` call on the empty component raises. -/
theorem parse_xy_counterexample_c9 :
    matchesXY (pyStrip "x") = true ∧ parse_xy "x" = .valueError ∧
    matchesXY (pyStrip "5x") = true ∧ parse_xy "5x" = .valueError := by
  decide

/-- C9 witness: the well-formed option 50x64 (with surrounding whitespace)
parses into its two components. -/
theorem parse_xy_c9_witness : parse_xy " 50x64 " = .parsed 50 64 := by
  have h := (parse_xy_c9 " 50x64 ").2.1 ['5', '0'] ['6', '4']
    (by decide) (by decide) (by decide) (by decide) (by decide)
  exact h.trans (by decide)

/-- Python `re.sub("[^0-9]", "", line)`: every non-digit character removed,
so all digit runs of the line are concatenated. -/
def stripNonDigits (line : String) : List Char :=
  line.data.filter Char.isDigit

/-- Which branch of the elif chain of `get_window_position_and_size` (lines
261 to 273 of the source) a line takes: the first label contained in the
line, in source order, or none of them. -/
inductive LineClass where
| lx
| ly
| lw
| lh
| other
deriving DecidableEq

/-- Line classification by substring containment, in the elif order of the
source. -/
def classify (line : String) : LineClass :=
  if strContains line "Absolute upper-left X:" then .lx
  else if strContains line "Absolute upper-left Y:" then .ly
  else if strContains line "Width:" then .lw
  else if strContains line "Height:" then .lh
  else .other

/-- Parser state: each labeled field's current value and seen flag.  This
packages the source's eight locals x, y, w, h and xt, yt, wt, ht as one map
from field to (value, flag). -/
def WinState : Type := LineClass → Nat × Bool

/-- All-zero, nothing-seen initial state (x = y = w = h = 0, all flags
False). -/
def initWin : WinState := fun _ => (0, false)

/-- One loop iteration of `get_window_position_and_size`: a line matching a
label overwrites that field with `int(re.sub("[^0-9]", "", line))` and sets
its flag; `int` of an empty digit string is an uncaught `ValueError`
(`none`); other lines leave the state alone. -/
def stepLine (st : WinState) (line : String) : Option WinState :=
  match classify line with
  | .other => some st
  | c => (pyIntDigits (stripNonDigits line)).map
      (fun v => Function.update st c (v, true))

/-- The line loop of `get_window_position_and_size`, aborting on the first
`ValueError`. -/
def parseLines : WinState → List String → Option WinState
  | st, [] => some st
  | st, l :: ls =>
    match stepLine st l with
    | none => none
    | some st' => parseLines st' ls

/-- Execution outcome of a Python call: an uncaught exception or a value. -/
inductive PyResult (α : Type) where
| raised
| ok (v : α)
deriving DecidableEq

/-- Shallow embedding of `get_window_position_and_size` (lines 240 to 277 of
the source).  `none` input models the `OSError` on spawning `xwininfo`
(returns `None`); otherwise the tool's output lines are folded through the
elif chain, and the rectangle is returned only when all four flags are set,
`None` otherwise. -/
def get_window_position_and_size (out : Option (List String)) :
    PyResult (Option (Nat × Nat × Nat × Nat)) :=
  match out with
  | none => .ok none
  | some lines =>
    match parseLines initWin lines with
    | none => .raised
    | some st =>
        if (st .lx).2 && (st .ly).2 && (st .lw).2 && (st .lh).2 then
          .ok (some ((st .lx).1, (st .ly).1, (st .lw).1, (st .lh).1))
        else .ok none

/-- A line is bad when it matches a label but holds no digit at all: there
the source's `int("")` raises. -/
def badLine (line : String) : Bool :=
  !(classify line == .other) && (stripNonDigits line == [])

/-- Lines of the given class among the output, last one wins. -/
def lastFieldLine (c : LineClass) (lines : List String) : Option String :=
  (lines.filter (fun l => classify l == c)).getLast?

/-- Does any line of the output take the given elif branch. -/
def anyClass (c : LineClass) (lines : List String) : Bool :=
  lines.any (fun l => classify l == c)

/-- Value the parser ends up storing for a field: the concatenated digits of
the last line of that class, 0 when the class never occurs. -/
def fieldVal (c : LineClass) (lines : List String) : Nat :=
  ((lastFieldLine c lines).map (fun l => digitsVal (stripNonDigits l))).getD 0

/-- Modelled from the spec for comparison: the first run of digits of a
line, as the specification words the extraction ("extracting the first run
of digits from each matching line"). -/
def specFirstDigitRun (line : String) : List Char :=
  (line.data.dropWhile (fun c => !c.isDigit)).takeWhile Char.isDigit

/-- Python `int` on the concatenated digits raises exactly on the empty
string. -/
theorem pyIntDigits_eq_none (l : List Char) : pyIntDigits l = none ↔ l = [] := by
  cases l <;> simp [pyIntDigits]

/-- One iteration aborts exactly on a bad line. -/
theorem stepLine_none_iff (st : WinState) (l : String) :
    stepLine st l = none ↔ badLine l = true := by
  unfold stepLine badLine
  cases hcl : classify l <;>
    simp [Option.map_eq_none', pyIntDigits_eq_none, beq_iff_eq]

/-- A labeled line of a good output rewrites its field with the line's
concatenated digits and sets the flag. -/
theorem stepLine_field (st : WinState) (l : String) (c0 : LineClass)
    (hcl : classify l = c0) (hc0 : c0 ≠ .other) (hne : stripNonDigits l ≠ []) :
    stepLine st l =
      some (Function.update st c0 (digitsVal (stripNonDigits l), true)) := by
  unfold stepLine
  rw [hcl]
  cases c0 <;> simp [pyIntDigits_ne_nil _ hne]
  exact absurd rfl hc0

/-- A bad line anywhere in the output makes the loop raise. -/
theorem parseLines_raises (lines : List String) :
    ∀ st : WinState, (∃ l ∈ lines, badLine l = true) →
      parseLines st lines = none := by
  induction lines with
  | nil => intro st h; simp at h
  | cons l ls ih =>
    intro st h
    obtain ⟨l0, hmem, hbad⟩ := h
    rcases List.mem_cons.mp hmem with heq | hmem2
    · subst heq
      have hstep := (stepLine_none_iff st l0).mpr hbad
      simp [parseLines, hstep]
    · cases hstep : stepLine st l with
      | none => simp [parseLines, hstep]
      | some st1 =>
        simp only [parseLines, hstep]
        exact ih st1 ⟨l0, hmem2, hbad⟩

/-- Appending a class hit to the front makes it the fallback of the
last-matching-line lookup. -/
theorem lastFieldLine_cons_hit (c : LineClass) (l : String) (ls : List String)
    (h : (classify l == c) = true) :
    lastFieldLine c (l :: ls) = some ((lastFieldLine c ls).getD l) := by
  unfold lastFieldLine
  simp only [List.filter_cons, h, if_true]
  rw [List.getLast?_cons]

/-- A class miss at the front leaves the last-matching-line lookup alone. -/
theorem lastFieldLine_cons_miss (c : LineClass) (l : String) (ls : List String)
    (h : (classify l == c) = false) :
    lastFieldLine c (l :: ls) = lastFieldLine c ls := by
  unfold lastFieldLine
  simp [List.filter_cons, h]

/-- Characterization of a completed loop over a good output: each field's
flag records whether its class occurred, and its value is the concatenated
digits of the last line of its class. -/
theorem parseLines_char (lines : List String) :
    ∀ st : WinState, (∀ l ∈ lines, badLine l = false) →
      ∃ st', parseLines st lines = some st' ∧
        ∀ c, c ≠ LineClass.other →
          (st' c).2 = ((st c).2 || anyClass c lines) ∧
          (st' c).1 = ((lastFieldLine c lines).map
            (fun l => digitsVal (stripNonDigits l))).getD (st c).1 := by
  induction lines with
  | nil =>
    intro st _
    exact ⟨st, rfl, fun c _ => by simp [anyClass, lastFieldLine]⟩
  | cons l ls ih =>
    intro st hgood
    have hl : badLine l = false := hgood l (List.mem_cons_self l ls)
    by_cases hcl : classify l = .other
    · have hstep : stepLine st l = some st := by unfold stepLine; rw [hcl]
      obtain ⟨st', hf, hcomp⟩ := ih st (fun x hx => hgood x (List.mem_cons_of_mem l hx))
      refine ⟨st', by simp [parseLines, hstep, hf], fun c hcne => ?_⟩
      obtain ⟨h1, h2⟩ := hcomp c hcne
      have hbeq : (classify l == c) = false := by
        rw [hcl]
        exact beq_eq_false_iff_ne.mpr (Ne.symm hcne)
      constructor
      · rw [h1]
        simp [anyClass, hbeq]
      · rw [h2, lastFieldLine_cons_miss c l ls hbeq]
    · have hne : stripNonDigits l ≠ [] := by
        unfold badLine at hl
        have : ¬(classify l == LineClass.other) = true := by
          simp [beq_iff_eq, hcl]
        simp only [Bool.and_eq_false_iff, Bool.not_eq_false'] at hl
        rcases hl with h | h
        · exact absurd h this
        · exact fun hEq => by simp [hEq] at h
      have hstep := stepLine_field st l (classify l) rfl hcl hne
      obtain ⟨st', hf, hcomp⟩ :=
        ih (Function.update st (classify l) (digitsVal (stripNonDigits l), true))
          (fun x hx => hgood x (List.mem_cons_of_mem l hx))
      refine ⟨st', by simp [parseLines, hstep, hf], fun c hcne => ?_⟩
      obtain ⟨h1, h2⟩ := hcomp c hcne
      by_cases hcc : c = classify l
      · subst hcc
        constructor
        · rw [h1, Function.update_same]
          simp [anyClass]
        · rw [h2, Function.update_same,
              lastFieldLine_cons_hit (classify l) l ls (beq_self_eq_true (classify l))]
          cases hlast : lastFieldLine (classify l) ls <;> simp [hlast]
      · have hbeq : (classify l == c) = false :=
          beq_eq_false_iff_ne.mpr (fun hEq => hcc hEq.symm)
        constructor
        · rw [h1, Function.update_noteq hcc]
          simp [anyClass, hbeq]
        · rw [h2, Function.update_noteq hcc, lastFieldLine_cons_miss c l ls hbeq]

/-- The value returned for a completed loop depends only on the final
state. -/
theorem gw_some_eq (lines : List String) (st' : WinState)
    (hf : parseLines initWin lines = some st') :
    get_window_position_and_size (some lines) =
      if (st' .lx).2 && (st' .ly).2 && (st' .lw).2 && (st' .lh).2 then
        .ok (some ((st' .lx).1, (st' .ly).1, (st' .lw).1, (st' .lh).1))
      else .ok none := by
  simp only [get_window_position_and_size]
  rw [hf]

/-- C8 (amended): the window query returns null exactly when the tool is
unavailable or one of the four labeled fields never occurs in its output;
a line matching a label but containing no digit makes the `int` conversion
raise instead; when all four fields occur (and no such bad line exists) the
returned rectangle holds, for each field, the integer formed by
concatenating all digit characters of the last line matching that label. -/
theorem window_info_c8 (out : Option (List String)) :
    (out = none → get_window_position_and_size out = .ok none) ∧
    (∀ lines, out = some lines →
      ((∃ l ∈ lines, badLine l = true) →
        get_window_position_and_size out = .raised) ∧
      ((∀ l ∈ lines, badLine l = false) →
        (get_window_position_and_size out = .ok none ↔
          ¬(anyClass .lx lines = true ∧ anyClass .ly lines = true ∧
            anyClass .lw lines = true ∧ anyClass .lh lines = true)) ∧
        ((anyClass .lx lines = true ∧ anyClass .ly lines = true ∧
          anyClass .lw lines = true ∧ anyClass .lh lines = true) →
          get_window_position_and_size out =
            .ok (some (fieldVal .lx lines, fieldVal .ly lines,
                       fieldVal .lw lines, fieldVal .lh lines))))) := by
  refine ⟨fun h => by rw [h]; rfl, fun lines hout => ?_⟩
  subst hout
  constructor
  · intro hex
    simp only [get_window_position_and_size]
    rw [parseLines_raises lines initWin hex]
  · intro hgood
    obtain ⟨st', hf, hcomp⟩ := parseLines_char lines initWin hgood
    have hx := hcomp .lx (by decide)
    have hy := hcomp .ly (by decide)
    have hw := hcomp .lw (by decide)
    have hh := hcomp .lh (by decide)
    have hx2 : (st' .lx).2 = anyClass .lx lines := by rw [hx.1]; simp [initWin]
    have hy2 : (st' .ly).2 = anyClass .ly lines := by rw [hy.1]; simp [initWin]
    have hw2 : (st' .lw).2 = anyClass .lw lines := by rw [hw.1]; simp [initWin]
    have hh2 : (st' .lh).2 = anyClass .lh lines := by rw [hh.1]; simp [initWin]
    have hx1 : (st' .lx).1 = fieldVal .lx lines := by rw [hx.2]; simp [initWin, fieldVal]
    have hy1 : (st' .ly).1 = fieldVal .ly lines := by rw [hy.2]; simp [initWin, fieldVal]
    have hw1 : (st' .lw).1 = fieldVal .lw lines := by rw [hw.2]; simp [initWin, fieldVal]
    have hh1 : (st' .lh).1 = fieldVal .lh lines := by rw [hh.2]; simp [initWin, fieldVal]
    have hres : get_window_position_and_size (some lines) =
        if anyClass .lx lines && anyClass .ly lines &&
           anyClass .lw lines && anyClass .lh lines then
          .ok (some (fieldVal .lx lines, fieldVal .ly lines,
                     fieldVal .lw lines, fieldVal .lh lines))
        else .ok none := by
      rw [gw_some_eq lines st' hf, hx2, hy2, hw2, hh2, hx1, hy1, hw1, hh1]
    constructor
    · cases hc : (anyClass .lx lines && anyClass .ly lines &&
          anyClass .lw lines && anyClass .lh lines) with
      | false =>
        have hgw : get_window_position_and_size (some lines) = .ok none := by
          rw [hres, hc]
          rfl
        rw [hgw]
        refine ⟨fun _ hcontra => ?_, fun _ => rfl⟩
        obtain ⟨a1, a2, a3, a4⟩ := hcontra
        rw [a1, a2, a3, a4] at hc
        exact absurd hc (by decide)
      | true =>
        have hgw : get_window_position_and_size (some lines) =
            .ok (some (fieldVal .lx lines, fieldVal .ly lines,
                       fieldVal .lw lines, fieldVal .lh lines)) := by
          rw [hres, hc]
          rfl
        rw [hgw]
        simp only [Bool.and_eq_true] at hc
        refine ⟨fun h => absurd h (by simp), fun hno => ?_⟩
        exact absurd ⟨hc.1.1.1, hc.1.1.2, hc.1.2, hc.2⟩ hno
    · intro hall
      obtain ⟨a1, a2, a3, a4⟩ := hall
      rw [hres, a1, a2, a3, a4]
      rfl

/-- C8 counterexample: on the line Absolute upper-left X: 1 2 the code
concatenates all digit runs (yielding x = 12), not the first run of digits
(which is 1) that the claim describes. -/
theorem window_info_counterexample_c8 :
    get_window_position_and_size (some
      ["Absolute upper-left X: 1 2", "Absolute upper-left Y: 0",
       "Width: 10", "Height: 10"]) = .ok (some (12, 0, 10, 10)) ∧
    digitsVal (specFirstDigitRun "Absolute upper-left X: 1 2") = 1 ∧
    (12 : Nat) ≠ 1 := by
  refine ⟨by decide, by decide, by decide⟩

/-- C8 witness: a complete well-formed xwininfo output yields the window
rectangle, and an unavailable tool yields null. -/
theorem window_info_c8_witness :
    get_window_position_and_size (some
      ["xwininfo: Window id: 0x3400007",
       "  Absolute upper-left X:  618", "  Absolute upper-left Y:  334",
       "  Width: 684", "  Height: 340"]) = .ok (some (618, 334, 684, 340)) ∧
    get_window_position_and_size none = .ok none := by
  constructor
  · have h := (((window_info_c8 (some
      ["xwininfo: Window id: 0x3400007",
       "  Absolute upper-left X:  618", "  Absolute upper-left Y:  334",
       "  Width: 684", "  Height: 340"])).2 _ rfl).2 (by decide)).2
      ⟨by decide, by decide, by decide, by decide⟩
    exact h.trans (by decide)
  · exact (window_info_c8 none).1 rfl

end Recordscreen
